import Mathlib

/-!
Verification development for the training script `rnn+efficientNet/retrain.py`
of the Deepfake-Detection repository.

The script composes a frozen EfficientNet feature extractor with an LSTM
classifier, trains the combined model for a fixed number of epochs, and
checkpoints the best model by validation loss.  Below we give a shallow
embedding of the script's own logic: the checkpointing loop, the combined
forward pass (permute / view / dropout / LSTM), the train and validation
bookkeeping, the file-write trace, and the state-dict loading at startup.
Library internals (EfficientNet feature extraction, the LSTM cell, the
cross-entropy value, the Adam update formula) are abstracted as parameters;
the script's composition logic is modelled faithfully.
-/

/-- A Python float as it appears as a validation loss: a finite rational,
`+inf` (the initial `best_val_loss = float('inf')`), or `NaN`.  Negative
infinity never appears as a cross-entropy loss and is omitted. -/
inductive LossVal where
  | nan : LossVal
  | inf : LossVal
  | fin : ℚ → LossVal
deriving DecidableEq

/-- IEEE-754 `<` on loss values: every comparison against `NaN` is false,
`inf < inf` is false, and a finite value is below `inf`. Models the Python
comparison `val_loss < best_val_loss`. -/
def LossVal.ltb : LossVal → LossVal → Bool
  | .nan, _ => false
  | _, .nan => false
  | .inf, _ => false
  | .fin _, .inf => true
  | .fin a, .fin b => decide (a < b)

/-- State of the checkpointing logic inside `train`: the running
`best_val_loss` and the (chronological) list of epoch indices at which
`model_best.pth` was written. -/
structure CkptState where
  best : LossVal
  saves : List Nat
deriving DecidableEq

/-- One epoch-end checkpoint decision (retrain.py lines 154-156):
`if val_loss < best_val_loss: best_val_loss = val_loss; torch.save(...)`. -/
def ckptStep (epoch : Nat) (v : LossVal) (s : CkptState) : CkptState :=
  if LossVal.ltb v s.best then { best := v, saves := s.saves ++ [epoch] } else s

/-- Run the checkpoint decisions over the per-epoch validation losses,
starting at epoch index `e` with state `s`. -/
def runCkptFrom (e : Nat) (s : CkptState) : List LossVal → CkptState
  | [] => s
  | v :: rest => runCkptFrom (e + 1) (ckptStep e v s) rest

/-- The whole run of `train`: `best_val_loss` starts at `float('inf')`
(retrain.py line 120) and no save has happened yet. -/
def runTrainCkpt (losses : List LossVal) : CkptState :=
  runCkptFrom 0 { best := .inf, saves := [] } losses

/-- Epoch indices saved, computed directly: at each epoch the current loss is
compared to the running best `b`. Auxiliary reformulation of `runCkptFrom`. -/
def savesAux (e : Nat) (b : LossVal) : List LossVal → List Nat
  | [] => []
  | v :: rest =>
      if LossVal.ltb v b then e :: savesAux (e + 1) v rest
      else savesAux (e + 1) b rest

/-- The running best after the whole run, computed directly. -/
def bestAux (b : LossVal) : List LossVal → LossVal
  | [] => b
  | v :: rest => if LossVal.ltb v b then bestAux v rest else bestAux b rest

theorem runCkptFrom_saves (l : List LossVal) : ∀ (e : Nat) (s : CkptState),
    (runCkptFrom e s l).saves = s.saves ++ savesAux e s.best l := by
  induction l with
  | nil => intro e s; simp [runCkptFrom, savesAux]
  | cons v rest ih =>
      intro e s
      by_cases h : LossVal.ltb v s.best
      · simp [runCkptFrom, savesAux, ckptStep, h, ih]
      · simp [runCkptFrom, savesAux, ckptStep, h, ih]

theorem runCkptFrom_best (l : List LossVal) : ∀ (e : Nat) (s : CkptState),
    (runCkptFrom e s l).best = bestAux s.best l := by
  induction l with
  | nil => intro e s; simp [runCkptFrom, bestAux]
  | cons v rest ih =>
      intro e s
      by_cases h : LossVal.ltb v s.best
      · simp [runCkptFrom, bestAux, ckptStep, h, ih]
      · simp [runCkptFrom, bestAux, ckptStep, h, ih]

theorem ltb_fin_below (q r : ℚ) (b : LossVal)
    (h : LossVal.ltb (.fin q) b = true) (hrq : r < q) :
    LossVal.ltb (.fin r) b = true := by
  cases b with
  | nan => simp [LossVal.ltb] at h
  | inf => simp [LossVal.ltb]
  | fin b => simp [LossVal.ltb] at h ⊢; linarith

theorem ltb_fin_of_not_save (q r : ℚ) (b : LossVal)
    (h : ¬ LossVal.ltb (.fin q) b = true)
    (hr : LossVal.ltb (.fin r) b = true) : r < q := by
  cases b with
  | nan => simp [LossVal.ltb] at hr
  | inf => simp [LossVal.ltb] at h
  | fin b => simp [LossVal.ltb] at h hr; linarith

/-- Characterisation of the epochs saved by the checkpoint loop when every
validation loss of the run is a finite number: starting from running best `b`
at epoch index `e`, epoch `e + k` is saved exactly when its loss beats `b` and
beats every loss earlier in the list. -/
theorem savesAux_mem_fin (qs : List ℚ) : ∀ (e : Nat) (b : LossVal) (i : Nat),
    i ∈ savesAux e b (qs.map LossVal.fin) ↔
      ∃ k, k < qs.length ∧ i = e + k ∧
        LossVal.ltb (.fin (qs.getD k 0)) b = true ∧
        ∀ j, j < k → qs.getD k 0 < qs.getD j 0 := by
  induction qs with
  | nil => intro e b i; simp [savesAux]
  | cons q rest ih =>
      intro e b i
      by_cases h : LossVal.ltb (.fin q) b = true
      · simp only [List.map_cons, savesAux, h, if_true, List.mem_cons]
        constructor
        · rintro (rfl | hmem)
          · exact ⟨0, Nat.succ_pos _, (Nat.add_zero i).symm, by simpa using h,
              fun j hj => absurd hj (Nat.not_lt_zero j)⟩
          · obtain ⟨k, hk, hi, hlt, hall⟩ := (ih (e + 1) (.fin q) i).1 hmem
            have hrq : rest.getD k 0 < q := by
              simpa [LossVal.ltb] using hlt
            refine ⟨k + 1, Nat.succ_lt_succ hk, by omega, ?_, ?_⟩
            · simpa using ltb_fin_below q (rest.getD k 0) b h hrq
            · intro j hj
              match j with
              | 0 => simpa using hrq
              | j + 1 =>
                  simpa using hall j (Nat.lt_of_succ_lt_succ hj)
        · rintro ⟨k, hk, rfl, hlt, hall⟩
          match k with
          | 0 => exact Or.inl (Nat.add_zero e).symm
          | k + 1 =>
              refine Or.inr ((ih (e + 1) (.fin q) _).2 ?_)
              refine ⟨k, Nat.lt_of_succ_lt_succ hk, by omega, ?_, ?_⟩
              · have h0 := hall 0 (Nat.succ_pos k)
                rw [List.getD_cons_succ, List.getD_cons_zero] at h0
                simpa [LossVal.ltb] using h0
              · intro j hj
                simpa using hall (j + 1) (Nat.succ_lt_succ hj)
      · simp only [List.map_cons, savesAux, h, Bool.false_eq_true, if_false]
        rw [ih (e + 1) b i]
        constructor
        · rintro ⟨k, hk, rfl, hlt, hall⟩
          refine ⟨k + 1, Nat.succ_lt_succ hk, by omega, by simpa using hlt, ?_⟩
          intro j hj
          match j with
          | 0 =>
              simpa using ltb_fin_of_not_save q (rest.getD k 0) b h hlt
          | j + 1 =>
              simpa using hall j (Nat.lt_of_succ_lt_succ hj)
        · rintro ⟨k, hk, rfl, hlt, hall⟩
          match k with
          | 0 => simp at hlt; exact absurd hlt h
          | k + 1 =>
              refine ⟨k, Nat.lt_of_succ_lt_succ hk, by omega, by simpa using hlt, ?_⟩
              intro j hj
              simpa using hall (j + 1) (Nat.succ_lt_succ hj)

/-- C1: during a single run of `train`, `model_best.pth` is written at the end
of epoch `i` if and only if that epoch's validation loss is strictly less than
every prior epoch's validation loss (with `best_val_loss` starting at `+inf`);
in particular a tie with the best seen so far does not save.  Stated for runs
whose validation losses are all finite numbers. -/
theorem best_checkpoint_iff_strict_improvement
    (qs : List ℚ) (i : Nat) (hi : i < qs.length) :
    i ∈ (runTrainCkpt (qs.map LossVal.fin)).saves ↔
      ∀ j, j < i → qs.getD i 0 < qs.getD j 0 := by
  rw [runTrainCkpt, runCkptFrom_saves]
  simp only [List.nil_append]
  rw [savesAux_mem_fin]
  constructor
  · rintro ⟨k, hk, rfl, hlt, hall⟩
    simpa using hall
  · intro hall
    exact ⟨i, hi, (Nat.zero_add i).symm, by simp [LossVal.ltb], by simpa using hall⟩

/-- Witness for C1 at the concrete run with losses `[1, 2, 1/2]`, epoch 2. -/
theorem best_checkpoint_iff_strict_improvement_witness :
    2 ∈ (runTrainCkpt ([1, 2, 1/2].map LossVal.fin)).saves ↔
      ∀ j, j < 2 → ([1, 2, (1 : ℚ)/2]).getD 2 0 < ([1, 2, (1 : ℚ)/2]).getD j 0 :=
  best_checkpoint_iff_strict_improvement [1, 2, 1/2] 2 (by decide)

theorem ltb_true_fin (v b : LossVal) (h : LossVal.ltb v b = true) :
    ∃ q, v = LossVal.fin q := by
  cases v with
  | nan => simp [LossVal.ltb] at h
  | inf => cases b <;> simp [LossVal.ltb] at h
  | fin q => exact ⟨q, rfl⟩

/-- General characterisation of the saved epochs, NaN and infinite losses
allowed: epoch `e + k` is saved exactly when its loss is a finite value that
the IEEE comparison puts strictly below the running best before that epoch. -/
theorem savesAux_mem (losses : List LossVal) : ∀ (e : Nat) (b : LossVal) (i : Nat),
    i ∈ savesAux e b losses ↔
      ∃ k, k < losses.length ∧ i = e + k ∧
        ∃ q, losses.getD k .nan = LossVal.fin q ∧
          LossVal.ltb (.fin q) (bestAux b (losses.take k)) = true := by
  induction losses with
  | nil => intro e b i; simp [savesAux]
  | cons v rest ih =>
      intro e b i
      by_cases h : LossVal.ltb v b = true
      · simp only [savesAux, h, if_true, List.mem_cons]
        constructor
        · rintro (rfl | hmem)
          · obtain ⟨q, rfl⟩ := ltb_true_fin v b h
            exact ⟨0, Nat.succ_pos _, (Nat.add_zero i).symm, q, rfl, by
              simpa [bestAux] using h⟩
          · obtain ⟨k, hk, hi, q, hq, hlt⟩ := (ih (e + 1) v i).1 hmem
            refine ⟨k + 1, Nat.succ_lt_succ hk, by omega, q, by simpa using hq, ?_⟩
            simpa [bestAux, h] using hlt
        · rintro ⟨k, hk, rfl, q, hq, hlt⟩
          match k with
          | 0 => exact Or.inl (Nat.add_zero e).symm
          | k + 1 =>
              refine Or.inr ((ih (e + 1) v _).2 ?_)
              refine ⟨k, Nat.lt_of_succ_lt_succ hk, by omega, q, by simpa using hq, ?_⟩
              simpa [bestAux, h] using hlt
      · simp only [savesAux, h, Bool.false_eq_true, if_false]
        rw [ih (e + 1) b i]
        constructor
        · rintro ⟨k, hk, rfl, q, hq, hlt⟩
          refine ⟨k + 1, Nat.succ_lt_succ hk, by omega, q, by simpa using hq, ?_⟩
          simpa [bestAux, h] using hlt
        · rintro ⟨k, hk, rfl, q, hq, hlt⟩
          match k with
          | 0 =>
              rw [List.getD_cons_zero] at hq
              subst hq
              simp [bestAux] at hlt
              exact absurd hlt h
          | k + 1 =>
              refine ⟨k, Nat.lt_of_succ_lt_succ hk, by omega, q, by simpa using hq, ?_⟩
              simpa [bestAux, h] using hlt

/-- C3: a NaN validation loss makes `val_loss < best_val_loss` false, so the
epoch performs no save and leaves `best_val_loss` unchanged, and the loop
simply continues with the next epoch; in general an epoch is saved only when
its loss is a non-NaN (finite) value that the IEEE comparison puts strictly
below the running best (the last finite best, or the initial `+inf`). -/
theorem nan_val_loss_checkpoint_stagnation
    (losses : List LossVal) (e : Nat) (s : CkptState) :
    (∀ b, LossVal.ltb .nan b = false) ∧
    (ckptStep e .nan s = s ∧
      runCkptFrom e s (.nan :: losses) = runCkptFrom (e + 1) s losses) ∧
    (∀ i, i ∈ (runCkptFrom e s losses).saves ↔ i ∈ s.saves ∨
        ∃ k, k < losses.length ∧ i = e + k ∧
          ∃ q, losses.getD k .nan = LossVal.fin q ∧
            LossVal.ltb (.fin q) (bestAux s.best (losses.take k)) = true) := by
  have hnan : ∀ b, LossVal.ltb .nan b = false := fun b => by cases b <;> rfl
  have hstep : ckptStep e .nan s = s := by simp [ckptStep, LossVal.ltb]
  refine ⟨hnan, ⟨hstep, ?_⟩, ?_⟩
  · show runCkptFrom (e + 1) (ckptStep e .nan s) losses = runCkptFrom (e + 1) s losses
    rw [hstep]
  · intro i
    rw [runCkptFrom_saves, List.mem_append, savesAux_mem]

/-- What a `torch.save` call serialises: the combined model's state dict
(`model.state_dict()`, line 156) or the extractor's (`effnet_model.state_dict()`,
line 187). -/
inductive SavedObj where
  | combinedState : SavedObj
  | effnetState : SavedObj
deriving DecidableEq

/-- The file writes made inside the training loop: one
`torch.save(model.state_dict(), 'model_best.pth')` per saved epoch, in
chronological order. -/
def trainLoopWrites (losses : List LossVal) : List (String × SavedObj) :=
  (runTrainCkpt losses).saves.map (fun _ => ("model_best.pth", SavedObj.combinedState))

/-- All file writes of a run of the script, in order: the loop's best-model
checkpoints, then the single terminal
`torch.save(effnet_model.state_dict(), 'model.pth')` (line 187). -/
def scriptFileWrites (losses : List LossVal) : List (String × SavedObj) :=
  trainLoopWrites losses ++ [("model.pth", SavedObj.effnetState)]

/-- C7: after the training loop, exactly one more write occurs — the extractor
state to `model.pth`; the combined model's state is written only as
`model_best.pth` during the loop, never after it: the write trace decomposes
as loop writes (all `model_best.pth` of the combined state) followed by the
single terminal extractor write, the extractor state is written exactly once,
and every combined-state write targets `model_best.pth`. -/
theorem terminal_write_is_extractor_state (losses : List LossVal) :
    (∃ pre, scriptFileWrites losses = pre ++ [("model.pth", SavedObj.effnetState)] ∧
      ∀ w ∈ pre, w = ("model_best.pth", SavedObj.combinedState)) ∧
    (scriptFileWrites losses).filter
        (fun w => decide (w.2 = SavedObj.effnetState)) =
      [("model.pth", SavedObj.effnetState)] ∧
    ∀ w ∈ scriptFileWrites losses,
      w.2 = SavedObj.combinedState → w.1 = "model_best.pth" := by
  have hpre : ∀ w ∈ trainLoopWrites losses,
      w = ("model_best.pth", SavedObj.combinedState) := by
    intro w hw
    obtain ⟨i, _, rfl⟩ := List.mem_map.1 hw
    rfl
  refine ⟨⟨trainLoopWrites losses, rfl, hpre⟩, ?_, ?_⟩
  · rw [scriptFileWrites, List.filter_append]
    have h1 : (trainLoopWrites losses).filter
        (fun w => decide (w.2 = SavedObj.effnetState)) = [] := by
      rw [List.filter_eq_nil_iff]
      intro a ha
      rw [hpre a ha]
      simp
    rw [h1, List.nil_append]
    rfl
  · intro w hw h2
    rcases List.mem_append.1 hw with h | h
    · rw [hpre w h]
    · rw [List.mem_singleton.1 h] at h2
      simp at h2

/-- A PyTorch tensor, shallowly embedded: its shape, its entries as a function
of the multi-index, and the ids of the trainable parameters its value depends
on through the autograd graph (`[]` for a tensor detached from the graph). -/
structure Tensor where
  shape : List Nat
  data : List Nat → ℚ
  deps : List Nat

/-- Models `with torch.no_grad(): ...` — the produced tensor is detached from
the autograd graph (retrain.py line 93). -/
def noGrad (t : Tensor) : Tensor := { t with deps := [] }

/-- Models `x.permute(0, 2, 3, 1)` (retrain.py line 95): channel-first to
channel-last. -/
def permute0231 (t : Tensor) : Tensor where
  shape := [t.shape.getD 0 0, t.shape.getD 2 0, t.shape.getD 3 0, t.shape.getD 1 0]
  data := fun i => t.data [i.getD 0 0, i.getD 3 0, i.getD 1 0, i.getD 2 0]
  deps := t.deps

/-- Models `x.view(x.size(0), x.size(1) * x.size(2), -1)` (retrain.py line 96):
merges the two middle axes into one; on the permuted channel-last map this
merge is stride-compatible, and the trailing `-1` is inferred as the last
axis' extent. -/
def viewMerge12 (t : Tensor) : Tensor where
  shape := [t.shape.getD 0 0, t.shape.getD 1 0 * t.shape.getD 2 0, t.shape.getD 3 0]
  data := fun i => t.data
    [i.getD 0 0, i.getD 1 0 / t.shape.getD 2 0, i.getD 1 0 % t.shape.getD 2 0, i.getD 2 0]
  deps := t.deps

/-- Models an `nn.Dropout` application; its Bernoulli/rescale mask is
abstracted as an elementwise factor (the constant-one mask is eval mode). -/
def dropoutT (mask : List Nat → ℚ) (t : Tensor) : Tensor where
  shape := t.shape
  data := fun i => mask i * t.data i
  deps := t.deps

/-- One abstract LSTM cell step: from the input row at a time step and the
previous (hidden, cell-state) pair to the next pair.  The gate arithmetic of
`nn.LSTM` is library code and is kept abstract. -/
def Cell : Type := (Nat → ℚ) → (Nat → ℚ) × (Nat → ℚ) → (Nat → ℚ) × (Nat → ℚ)

/-- Hidden and cell state after consuming time steps `0..t`, starting from the
zero initial states `h0 = c0 = torch.zeros(...)` (retrain.py lines 77-78). -/
def lstmHidden (cell : Cell) (row : Nat → Nat → ℚ) : Nat → (Nat → ℚ) × (Nat → ℚ)
  | 0 => cell (row 0) ⟨fun _ => 0, fun _ => 0⟩
  | t + 1 => cell (row (t + 1)) (lstmHidden cell row t)

/-- Parameters of `LSTMModel` as the script builds it: configured input width,
hidden width, number of classes, the final linear layer's weight and bias, and
the ids of the module's trainable parameters (LSTM weights and `fc`). -/
structure LSTMParams where
  inputSize : Nat
  hiddenSize : Nat
  numClasses : Nat
  fcW : Nat → Nat → ℚ
  fcB : Nat → ℚ
  paramIds : List Nat

/-- Models the final `self.fc = nn.Linear(hidden_size, num_classes)` applied
to a (batch, hidden) tensor (retrain.py line 81). -/
def fcApply (m : LSTMParams) (t : Tensor) : Tensor where
  shape := [t.shape.getD 0 0, m.numClasses]
  data := fun i => m.fcB (i.getD 1 0) +
    ((List.range m.hiddenSize).map
      (fun j => m.fcW (i.getD 1 0) j * t.data [i.getD 0 0, j])).sum
  deps := t.deps ++ m.paramIds

/-- Models `LSTMModel.forward` (retrain.py lines 76-82) for `num_layers = 1`
as the script sets: run the LSTM over the sequence from zero initial states,
take the last time step `out[:, -1, :]`, apply dropout, then the final linear
layer.  `nn.LSTM` raises when the input's feature width differs from the
configured `input_size`; that is the `none` case. -/
def lstmModelForward (m : LSTMParams) (cell : Cell) (mask : List Nat → ℚ)
    (x : Tensor) : Option Tensor :=
  if x.shape.getD 2 0 = m.inputSize then
    let B := x.shape.getD 0 0
    let T := x.shape.getD 1 0
    let out : Tensor :=
      { shape := [B, T, m.hiddenSize],
        data := fun i =>
          (lstmHidden cell (fun t f => x.data [i.getD 0 0, t, f]) (i.getD 1 0)).1
            (i.getD 2 0),
        deps := x.deps ++ m.paramIds }
    let sel : Tensor :=
      { shape := [B, m.hiddenSize],
        data := fun i => out.data [i.getD 0 0, T - 1, i.getD 1 0],
        deps := out.deps }
    some (fcApply m (dropoutT mask sel))
  else none

/-- Models `CombinedModel.forward` (retrain.py lines 92-99): extract features
under `torch.no_grad()`, permute to channel-last, flatten the two spatial
axes, apply dropout, feed the LSTM model, return its logits.  `maskC` is the
combined model's dropout mask, `maskL` the LSTM model's. -/
def combinedForward (extract : Tensor → Tensor) (maskC maskL : List Nat → ℚ)
    (m : LSTMParams) (cell : Cell) (x : Tensor) : Option Tensor :=
  lstmModelForward m cell maskL
    (dropoutT maskC (viewMerge12 (permute0231 (noGrad (extract x)))))

/-- The sequence tensor the LSTM model receives inside the combined forward
pass. -/
def combinedSeqInput (extract : Tensor → Tensor) (maskC : List Nat → ℚ)
    (x : Tensor) : Tensor :=
  dropoutT maskC (viewMerge12 (permute0231 (noGrad (extract x))))

/-- Script constant `lstm_hidden_size = 128` (retrain.py line 105). -/
def lstm_hidden_size : Nat := 128

/-- Script constant `lstm_num_classes = 2` (retrain.py line 107). -/
def lstm_num_classes : Nat := 2

/-- The `LSTMModel(lstm_input_size, lstm_hidden_size, lstm_num_layers,
lstm_num_classes)` the script constructs (retrain.py line 108), where
`lstm_input_size = num_ftrs` is the extractor's channel width. -/
def scriptLSTM (num_ftrs : Nat) (fcW : Nat → Nat → ℚ) (fcB : Nat → ℚ)
    (ids : List Nat) : LSTMParams :=
  { inputSize := num_ftrs, hiddenSize := lstm_hidden_size,
    numClasses := lstm_num_classes, fcW := fcW, fcB := fcB, paramIds := ids }

/-- C2: on every input batch the combined forward pass is exactly the ordered
composition — no-grad feature extraction, permute (B,C,H,W) to channel-last
(B,H,W,C), flatten the two spatial axes to (B,H*W,C), dropout, then the
sequence classifier, whose logits are returned: the extracted features carry
no autograd dependencies, the permuted and flattened shapes are as claimed,
the flattened entry (b,t,c) is feature-map entry (b,c,t/W,t%W), and the
classifier indeed returns logits. -/
theorem combined_forward_steps
    (extract : Tensor → Tensor) (maskC maskL : List Nat → ℚ)
    (m : LSTMParams) (cell : Cell) (x : Tensor) (B C H W : Nat)
    (hshape : (extract x).shape = [B, C, H, W]) (hin : m.inputSize = C) :
    combinedForward extract maskC maskL m cell x =
      lstmModelForward m cell maskL
        (dropoutT maskC (viewMerge12 (permute0231 (noGrad (extract x))))) ∧
    (noGrad (extract x)).deps = [] ∧
    (permute0231 (noGrad (extract x))).shape = [B, H, W, C] ∧
    (viewMerge12 (permute0231 (noGrad (extract x)))).shape = [B, H * W, C] ∧
    (∀ b t c, (viewMerge12 (permute0231 (noGrad (extract x)))).data [b, t, c] =
      (extract x).data [b, c, t / W, t % W]) ∧
    ∃ logits, combinedForward extract maskC maskL m cell x = some logits := by
  refine ⟨rfl, rfl, ?_, ?_, ?_, ?_⟩
  · simp [permute0231, noGrad, hshape]
  · simp [viewMerge12, permute0231, noGrad, hshape]
  · intro b t c
    simp [viewMerge12, permute0231, noGrad, hshape]
  · have hc : (dropoutT maskC (viewMerge12 (permute0231
        (noGrad (extract x))))).shape.getD 2 0 = m.inputSize := by
      simp [dropoutT, viewMerge12, permute0231, noGrad, hshape, hin]
    unfold combinedForward lstmModelForward
    rw [if_pos hc]
    exact ⟨_, rfl⟩

/-- Tiny concrete extractor used in witnesses: a 1x1x1x1 zero feature map. -/
def wExtract : Tensor → Tensor :=
  fun _ => { shape := [1, 1, 1, 1], data := fun _ => 0, deps := [] }

/-- Identity dropout mask used in witnesses. -/
def wMask : List Nat → ℚ := fun _ => 1

/-- Identity LSTM cell used in witnesses. -/
def wCell : Cell := fun _ p => p

/-- Concrete LSTM parameters used in witnesses. -/
def wLSTM : LSTMParams := scriptLSTM 1 (fun _ _ => 0) (fun _ => 0) []

/-- Concrete input batch used in witnesses. -/
def wX : Tensor := { shape := [1], data := fun _ => 0, deps := [] }

/-- Witness for C2 at concrete one-element tensors. -/
theorem combined_forward_steps_witness :
    combinedForward wExtract wMask wMask wLSTM wCell wX =
      lstmModelForward wLSTM wCell wMask
        (dropoutT wMask (viewMerge12 (permute0231 (noGrad (wExtract wX))))) ∧
    (noGrad (wExtract wX)).deps = [] ∧
    (permute0231 (noGrad (wExtract wX))).shape = [1, 1, 1, 1] ∧
    (viewMerge12 (permute0231 (noGrad (wExtract wX)))).shape = [1, 1 * 1, 1] ∧
    (∀ b t c, (viewMerge12 (permute0231 (noGrad (wExtract wX)))).data [b, t, c] =
      (wExtract wX).data [b, c, t / 1, t % 1]) ∧
    ∃ logits, combinedForward wExtract wMask wMask wLSTM wCell wX = some logits :=
  combined_forward_steps wExtract wMask wMask wLSTM wCell wX 1 1 1 1 rfl rfl

/-- C5: whenever the extractor produces a (B, num_ftrs, H, W) feature map —
any spatial resolution H, W — and the LSTM model is the script's
`LSTMModel(num_ftrs, 128, 1, 2)`, the combined forward pass returns logits of
shape (B, 2), the sequence length is H*W, and the logits are a function of the
LSTM's hidden state at the final time step `H*W - 1` only (dropout and the
final linear layer applied to it). -/
theorem combined_output_shape
    (extract : Tensor → Tensor) (maskC maskL : List Nat → ℚ)
    (num_ftrs : Nat) (fcW : Nat → Nat → ℚ) (fcB : Nat → ℚ) (ids : List Nat)
    (cell : Cell) (x : Tensor) (B H W : Nat)
    (hshape : (extract x).shape = [B, num_ftrs, H, W]) :
    ∃ out,
      combinedForward extract maskC maskL (scriptLSTM num_ftrs fcW fcB ids) cell x
        = some out ∧
      out.shape = [B, 2] ∧
      ∀ b j, out.data [b, j] = fcB j +
        ((List.range lstm_hidden_size).map (fun k => fcW j k *
          (maskL [b, k] *
            (lstmHidden cell
              (fun t f => (combinedSeqInput extract maskC x).data [b, t, f])
              (H * W - 1)).1 k))).sum := by
  have hc : (dropoutT maskC (viewMerge12 (permute0231
      (noGrad (extract x))))).shape.getD 2 0 =
      (scriptLSTM num_ftrs fcW fcB ids).inputSize := by
    simp [dropoutT, viewMerge12, permute0231, noGrad, hshape, scriptLSTM]
  unfold combinedForward lstmModelForward
  rw [if_pos hc]
  refine ⟨_, rfl, ?_, ?_⟩
  · simp [fcApply, dropoutT, viewMerge12, permute0231, noGrad, hshape, scriptLSTM,
      lstm_num_classes]
  · intro b j
    simp [fcApply, dropoutT, combinedSeqInput, viewMerge12, permute0231, noGrad,
      hshape, scriptLSTM, lstm_hidden_size]

/-- Witness for C5 at concrete one-element tensors. -/
theorem combined_output_shape_witness :
    ∃ out,
      combinedForward wExtract wMask wMask
          (scriptLSTM 1 (fun _ _ => 0) (fun _ => 0) []) wCell wX = some out ∧
      out.shape = [1, 2] ∧
      ∀ b j, out.data [b, j] = (0 : ℚ) +
        ((List.range lstm_hidden_size).map (fun k => (0 : ℚ) *
          (wMask [b, k] *
            (lstmHidden wCell
              (fun t f => (combinedSeqInput wExtract wMask wX).data [b, t, f])
              (1 * 1 - 1)).1 k))).sum :=
  combined_output_shape wExtract wMask wMask 1 (fun _ _ => 0) (fun _ => 0) []
    wCell wX 1 1 1 rfl

/-- Models `criterion = nn.CrossEntropyLoss()` applied to the logits: the loss
value itself is library arithmetic and is abstracted as `lossVal`; in the
autograd graph the scalar loss node depends on exactly the parameters the
logits depend on (the labels carry no parameters). -/
def criterionLoss (lossVal : ℚ) (out : Tensor) : Tensor :=
  { shape := [], data := fun _ => lossVal, deps := out.deps }

/-- Models `loss.backward()`: a parameter receives a gradient exactly when it
is in the loss's autograd graph (gradient values abstracted as `g`); every
other parameter keeps `.grad = None`. -/
def backwardGrads (lossT : Tensor) (g : Nat → ℚ) : Nat → Option ℚ :=
  fun i => if i ∈ lossT.deps then some (g i) else none

/-- Models `optimizer.step()` for an optimizer registered over every
parameter id (`optim.Adam(combined_model.parameters(), lr=0.001)`, line 115):
a parameter whose `.grad` is `None` is skipped; for the others the Adam update
arithmetic is abstracted as `upd`. -/
def optimStep (upd : ℚ → ℚ → ℚ) (grads : Nat → Option ℚ) (p : Nat → ℚ) :
    Nat → ℚ :=
  fun i => match grads i with
    | none => p i
    | some gv => upd (p i) gv

/-- Models one iteration of the training loop's parameter update (retrain.py
lines 127-133): `optimizer.zero_grad()`, forward, loss, `loss.backward()`,
`optimizer.step()`.  If the forward raises, the parameters are untouched. -/
def trainBatchStep (extract : Tensor → Tensor) (maskC maskL : List Nat → ℚ)
    (m : LSTMParams) (cell : Cell) (lossVal : ℚ) (g : Nat → ℚ)
    (upd : ℚ → ℚ → ℚ) (p : Nat → ℚ) (x : Tensor) : Nat → ℚ :=
  match combinedForward extract maskC maskL m cell x with
  | none => p
  | some out => optimStep upd (backwardGrads (criterionLoss lossVal out) g) p

/-- In the combined forward pass the logits depend on the LSTM module's
parameters only: feature extraction happens inside `torch.no_grad()`, so no
extractor parameter — backbone or replaced head — enters the autograd
graph. -/
theorem combinedForward_deps
    (extract : Tensor → Tensor) (maskC maskL : List Nat → ℚ)
    (m : LSTMParams) (cell : Cell) (x : Tensor) (out : Tensor)
    (h : combinedForward extract maskC maskL m cell x = some out) :
    out.deps = m.paramIds ++ m.paramIds := by
  unfold combinedForward lstmModelForward at h
  by_cases hc : (dropoutT maskC (viewMerge12 (permute0231
      (noGrad (extract x))))).shape.getD 2 0 = m.inputSize
  · rw [if_pos hc] at h
    cases h
    rfl
  · rw [if_neg hc] at h
    cases h

/-- C10: every extractor parameter — backbone and replaced classifier head —
is unchanged by the optimizer step of a training iteration, although the
optimizer is registered over all parameters: the forward pass only calls
`extract_features` inside `torch.no_grad()` and never the head, so extractor
parameters receive no gradient and `optimizer.step()` skips them. -/
theorem effnet_params_frozen
    (extract : Tensor → Tensor) (maskC maskL : List Nat → ℚ)
    (m : LSTMParams) (cell : Cell) (lossVal : ℚ) (g : Nat → ℚ)
    (upd : ℚ → ℚ → ℚ) (p : Nat → ℚ) (x : Tensor) (i : Nat)
    (hi : i ∉ m.paramIds) :
    trainBatchStep extract maskC maskL m cell lossVal g upd p x i = p i := by
  unfold trainBatchStep
  cases hfwd : combinedForward extract maskC maskL m cell x with
  | none => rfl
  | some out =>
      have hdeps := combinedForward_deps extract maskC maskL m cell x out hfwd
      show optimStep upd (backwardGrads (criterionLoss lossVal out) g) p i = p i
      unfold optimStep backwardGrads criterionLoss
      have hni : i ∉ out.deps := by
        rw [hdeps]
        simpa using fun h => hi h
      simp [hni]

/-- Witness for C10: the extractor's parameter with id 0 is untouched by a
training step although its value enters the (no-grad) feature extraction. -/
theorem effnet_params_frozen_witness :
    trainBatchStep wExtract wMask wMask
      (scriptLSTM 1 (fun _ _ => 0) (fun _ => 0) [1]) wCell 0 (fun _ => 1)
      (fun a b => a + b) (fun j => (j : ℚ)) wX 0 = ((0 : Nat) : ℚ) :=
  effnet_params_frozen wExtract wMask wMask
    (scriptLSTM 1 (fun _ _ => 0) (fun _ => 0) [1]) wCell 0 (fun _ => 1)
    (fun a b => a + b) (fun j => (j : ℚ)) wX 0 (by decide)

/-- Models `_, predicted = torch.max(outputs, 1)` on a two-class logit row:
the index of the first maximal entry, so class 1 exactly when the class-1
logit strictly exceeds the class-0 logit. -/
def predictedOf (p : ℚ × ℚ) : Nat := if p.1 < p.2 then 1 else 0

/-- Models `(predicted == labels).sum().item()` for one batch. -/
def countCorrect (outs : List (ℚ × ℚ)) (labels : List Nat) : Nat :=
  ((outs.zip labels).filter (fun s => predictedOf s.1 == s.2)).length

/-- The running statistics both loops keep: the weighted loss accumulator
(`running_loss` / `val_loss`), `correct_predictions` and `total_samples`. -/
structure RunStats where
  lossSum : ℚ
  correct : Nat
  total : Nat

/-- The per-batch statistics update, shared verbatim by `train` (retrain.py
lines 136-139) and `validate` (lines 171-174): add `loss.item() *
inputs.size(0)` to the loss accumulator, the exact matches to
`correct_predictions`, and the batch size to `total_samples`. -/
def statStep (outs : List (ℚ × ℚ)) (labels : List Nat) (meanLoss : ℚ)
    (s : RunStats) : RunStats :=
  { lossSum := s.lossSum + meanLoss * (labels.length : ℚ),
    correct := s.correct + countCorrect outs labels,
    total := s.total + labels.length }

/-- Fold of the per-batch statistics over the loader's batches, starting from
zeroed accumulators, with the batch's logits, labels and mean loss given by
`outsOf`, `labelsOf` and `lossOf`. -/
def epochStats {β : Type} (outsOf : β → List (ℚ × ℚ)) (labelsOf : β → List Nat)
    (lossOf : β → ℚ) (batches : List β) : RunStats :=
  batches.foldl (fun s b => statStep (outsOf b) (labelsOf b) (lossOf b) s)
    { lossSum := 0, correct := 0, total := 0 }

/-- Models `epoch_loss = running_loss / len(train_loader.dataset)` (retrain.py
line 142); `dsSize` is the training dataset's size. -/
def epochLoss {β : Type} (outsOf : β → List (ℚ × ℚ)) (labelsOf : β → List Nat)
    (lossOf : β → ℚ) (batches : List β) (dsSize : Nat) : ℚ :=
  (epochStats outsOf labelsOf lossOf batches).lossSum / (dsSize : ℚ)

theorem epochStats_foldl {β : Type} (outsOf : β → List (ℚ × ℚ))
    (labelsOf : β → List Nat) (lossOf : β → ℚ) (batches : List β) :
    ∀ s : RunStats,
      batches.foldl (fun s b => statStep (outsOf b) (labelsOf b) (lossOf b) s) s =
        { lossSum := s.lossSum +
            (batches.map (fun b => lossOf b * ((labelsOf b).length : ℚ))).sum,
          correct := s.correct +
            (batches.map (fun b => countCorrect (outsOf b) (labelsOf b))).sum,
          total := s.total +
            (batches.map (fun b => (labelsOf b).length)).sum } := by
  induction batches with
  | nil => intro s; simp
  | cons b rest ih =>
      intro s
      rw [List.foldl_cons, ih]
      simp [statStep, add_assoc]

theorem epochStats_eq {β : Type} (outsOf : β → List (ℚ × ℚ))
    (labelsOf : β → List Nat) (lossOf : β → ℚ) (batches : List β) :
    epochStats outsOf labelsOf lossOf batches =
      { lossSum := (batches.map (fun b => lossOf b * ((labelsOf b).length : ℚ))).sum,
        correct := (batches.map (fun b => countCorrect (outsOf b) (labelsOf b))).sum,
        total := (batches.map (fun b => (labelsOf b).length)).sum } := by
  rw [epochStats, epochStats_foldl]
  simp

/-- C4: the reported `epoch_loss` equals the sum over the loader's batches of
(mean batch loss × actual batch size — the final batch may be smaller, its
`labels` list just is shorter) divided by the training dataset's size, i.e.
the batch-size-weighted combination of the per-batch losses. -/
theorem epoch_loss_weighted_sum {β : Type} (outsOf : β → List (ℚ × ℚ))
    (labelsOf : β → List Nat) (lossOf : β → ℚ) (batches : List β)
    (dsSize : Nat) :
    epochLoss outsOf labelsOf lossOf batches dsSize =
      (batches.map (fun b => lossOf b * ((labelsOf b).length : ℚ))).sum /
        (dsSize : ℚ) := by
  rw [epochLoss, epochStats_eq]

/-- Training-vs-evaluation mode flag set by `model.train()` / `model.eval()`. -/
inductive Mode where
  | trainMode : Mode
  | evalMode : Mode
deriving DecidableEq

/-- The model as `validate` sees it: its parameter set (id-indexed values) and
its mode flag. -/
structure MState where
  params : Nat → ℚ
  mode : Mode

/-- Models `validate` (retrain.py lines 158-179): switch the model to
evaluation mode, run every batch under `torch.no_grad()` (the `false` grad
flag passed to the batch evaluators), keep the same statistics as the training
loop, and return `(val_loss / len(val_loader.dataset), correct / total)`.
`outsOf m g b` are the logits `model(inputs)` computed by model state `m`
with gradient tracking `g`, `lossOf m g b` the mean loss `criterion(outputs,
labels).item()`, `labelsOf b` the batch's labels. -/
def validate {β : Type} (outsOf : MState → Bool → β → List (ℚ × ℚ))
    (lossOf : MState → Bool → β → ℚ) (labelsOf : β → List Nat)
    (s0 : MState) (batches : List β) (dsSize : Nat) : MState × ℚ × ℚ :=
  let mE : MState := { s0 with mode := Mode.evalMode }
  let st := epochStats (outsOf mE false) labelsOf (lossOf mE false) batches
  (mE, st.lossSum / (dsSize : ℚ), (st.correct : ℚ) / (st.total : ℚ))

theorem countCorrect_le (outs : List (ℚ × ℚ)) (labels : List Nat) :
    countCorrect outs labels ≤ labels.length := by
  calc countCorrect outs labels ≤ (outs.zip labels).length :=
        List.length_filter_le _ _
    _ ≤ labels.length := by rw [List.length_zip]; exact min_le_right _ _

/-- C6: on a non-empty validation set, the accuracy `validate` returns equals
the number of samples whose predicted class (argmax of the logits) matches the
label divided by the total number of samples seen, and lies in [0, 1]; the
returned loss is the batch-size-weighted loss sum divided by the validation
dataset's size. -/
theorem validate_accuracy_in_unit_interval {β : Type}
    (outsOf : MState → Bool → β → List (ℚ × ℚ))
    (lossOf : MState → Bool → β → ℚ) (labelsOf : β → List Nat)
    (s0 : MState) (batches : List β) (dsSize : Nat)
    (hpos : 0 < (batches.map (fun b => (labelsOf b).length)).sum) :
    (validate outsOf lossOf labelsOf s0 batches dsSize).2.2 =
      ((batches.map (fun b =>
          countCorrect (outsOf { s0 with mode := Mode.evalMode } false b)
            (labelsOf b))).sum : ℚ) /
        ((batches.map (fun b => (labelsOf b).length)).sum : ℚ) ∧
    0 ≤ (validate outsOf lossOf labelsOf s0 batches dsSize).2.2 ∧
    (validate outsOf lossOf labelsOf s0 batches dsSize).2.2 ≤ 1 ∧
    (validate outsOf lossOf labelsOf s0 batches dsSize).2.1 =
      (batches.map (fun b =>
          lossOf { s0 with mode := Mode.evalMode } false b *
            ((labelsOf b).length : ℚ))).sum / (dsSize : ℚ) := by
  have hacc : (validate outsOf lossOf labelsOf s0 batches dsSize).2.2 =
      ((batches.map (fun b =>
          countCorrect (outsOf { s0 with mode := Mode.evalMode } false b)
            (labelsOf b))).sum : ℚ) /
        ((batches.map (fun b => (labelsOf b).length)).sum : ℚ) := by
    rw [validate]
    simp only [epochStats_eq]
  have hle : (batches.map (fun b =>
      countCorrect (outsOf { s0 with mode := Mode.evalMode } false b)
        (labelsOf b))).sum ≤
      (batches.map (fun b => (labelsOf b).length)).sum := by
    apply List.sum_le_sum
    intro b _
    exact countCorrect_le _ _
  refine ⟨hacc, ?_, ?_, ?_⟩
  · rw [hacc]
    positivity
  · rw [hacc]
    rw [div_le_one (by exact_mod_cast hpos)]
    exact_mod_cast hle
  · rw [validate]
    simp only [epochStats_eq]

/-- Witness for C6 at a concrete two-sample batch: logits (0, 1) predicted as
class 1 matching label 1, logits (3, 2) predicted as class 0 against label 1. -/
theorem validate_accuracy_in_unit_interval_witness :
    (validate (fun _ _ (b : List (ℚ × ℚ)) => b) (fun _ _ _ => 2)
        (fun _ => [1, 1]) { params := fun _ => 0, mode := Mode.trainMode }
        [[(0, 1), (3, 2)]] 2).2.2 =
      (([[((0 : ℚ), (1 : ℚ)), (3, 2)]].map
          (fun b => countCorrect b [1, 1])).sum : ℚ) /
        (([[((0 : ℚ), (1 : ℚ)), (3, 2)]].map
          (fun _ => ([1, 1] : List Nat).length)).sum : ℚ) ∧
    0 ≤ (validate (fun _ _ (b : List (ℚ × ℚ)) => b) (fun _ _ _ => 2)
        (fun _ => [1, 1]) { params := fun _ => 0, mode := Mode.trainMode }
        [[(0, 1), (3, 2)]] 2).2.2 ∧
    (validate (fun _ _ (b : List (ℚ × ℚ)) => b) (fun _ _ _ => 2)
        (fun _ => [1, 1]) { params := fun _ => 0, mode := Mode.trainMode }
        [[(0, 1), (3, 2)]] 2).2.2 ≤ 1 ∧
    (validate (fun _ _ (b : List (ℚ × ℚ)) => b) (fun _ _ _ => 2)
        (fun _ => [1, 1]) { params := fun _ => 0, mode := Mode.trainMode }
        [[(0, 1), (3, 2)]] 2).2.1 =
      ([[((0 : ℚ), (1 : ℚ)), (3, 2)]].map
          (fun _ => (2 : ℚ) * (([1, 1] : List Nat).length : ℚ))).sum / (2 : ℚ) :=
  validate_accuracy_in_unit_interval (fun _ _ (b : List (ℚ × ℚ)) => b)
    (fun _ _ _ => 2) (fun _ => [1, 1])
    { params := fun _ => 0, mode := Mode.trainMode }
    [[(0, 1), (3, 2)]] 2 (by simp)

/-- C9: `validate` modifies no model parameter: it switches the model to
evaluation mode (which disables dropout), evaluates every batch with gradient
tracking disabled (the `false` flag), performs the same loss and accuracy
bookkeeping fold as the training loop (`epochStats`), performs no optimizer
step, and the parameter set it hands back is exactly the input one. -/
theorem validate_preserves_parameters {β : Type}
    (outsOf : MState → Bool → β → List (ℚ × ℚ))
    (lossOf : MState → Bool → β → ℚ) (labelsOf : β → List Nat)
    (s0 : MState) (batches : List β) (dsSize : Nat) :
    (validate outsOf lossOf labelsOf s0 batches dsSize).1.params = s0.params ∧
    (validate outsOf lossOf labelsOf s0 batches dsSize).1.mode = Mode.evalMode ∧
    validate outsOf lossOf labelsOf s0 batches dsSize =
      ({ s0 with mode := Mode.evalMode },
        (epochStats (outsOf { s0 with mode := Mode.evalMode } false) labelsOf
          (lossOf { s0 with mode := Mode.evalMode } false) batches).lossSum /
            (dsSize : ℚ),
        ((epochStats (outsOf { s0 with mode := Mode.evalMode } false) labelsOf
          (lossOf { s0 with mode := Mode.evalMode } false) batches).correct : ℚ) /
        ((epochStats (outsOf { s0 with mode := Mode.evalMode } false) labelsOf
          (lossOf { s0 with mode := Mode.evalMode } false) batches).total : ℚ)) :=
  ⟨rfl, rfl, rfl⟩

/-- Shape of the entry a state dict holds under key `k` (first match), if any. -/
def lookupShape (sd : List (String × List Nat)) (k : String) : Option (List Nat) :=
  (sd.find? (fun p => p.1 == k)).map (fun p => p.2)

/-- Models `Module.load_state_dict` with its default `strict=True`: the load
succeeds only when every model parameter finds its key in the checkpoint with
an equal tensor shape and the checkpoint has no unexpected key; otherwise it
raises. -/
def load_state_dict (model ckpt : List (String × List Nat)) :
    Except String Unit :=
  if (model.all (fun p => decide (lookupShape ckpt p.1 = some p.2))) &&
      (ckpt.all (fun p => (lookupShape model p.1).isSome)) then
    Except.ok ()
  else
    Except.error "Error(s) in loading state_dict"

/-- Parameter shapes of `CustomClassifier(num_ftrs, num_classes)` (retrain.py
lines 51-53): `fc1 = nn.Linear(num_ftrs, 512)` and
`fc2 = nn.Linear(512, num_classes)`; the dropout and ReLU layers hold no
parameters. -/
def customClassifierShapes (num_ftrs numClasses : Nat) :
    List (String × List Nat) :=
  [("fc1.weight", [512, num_ftrs]), ("fc1.bias", [512]),
   ("fc2.weight", [numClasses, 512]), ("fc2.bias", [numClasses])]

/-- Parameter shapes of the extractor after
`effnet_model._fc = CustomClassifier(num_ftrs, 2)` (retrain.py line 62): the
EfficientNet backbone's own shapes (library data, abstract) plus the replaced
head's, under the `_fc.` prefix. -/
def effnetModelShapes (backbone : List (String × List Nat)) (num_ftrs : Nat) :
    List (String × List Nat) :=
  backbone ++ (customClassifierShapes num_ftrs 2).map
    (fun p => ("_fc." ++ p.1, p.2))

/-- The order of the script's top-level actions around training:
`effnet_model.load_state_dict(torch.load("efficientnet_model.pth"))` (line 63),
`combined_model.load_state_dict(torch.load('combined_model_best.pth'))`
(line 117), the `train(...)` call (line 184), and the final save (line 187). -/
inductive ScriptEvent where
  | loadEffnetCkpt : ScriptEvent
  | loadCombinedCkpt : ScriptEvent
  | trainLoop : ScriptEvent
  | saveFinal : ScriptEvent
deriving DecidableEq

/-- The script's top-level event sequence, in source order. -/
def scriptEvents : List ScriptEvent :=
  [.loadEffnetCkpt, .loadCombinedCkpt, .trainLoop, .saveFinal]

/-- C8: at startup — before the training loop runs — the script loads the
checkpoint `efficientnet_model.pth` into the extractor whose classifier has
already been replaced by the custom two-layer head, so the head's parameters
(the previously fine-tuned ones) are part of what is loaded; and whenever the
checkpoint holds a key of the constructed architecture with a different
tensor shape, the load fails. -/
theorem effnet_ckpt_load_mismatch_fails
    (backbone ckpt : List (String × List Nat)) (num_ftrs : Nat)
    (k : String) (s t : List Nat)
    (hm : lookupShape (effnetModelShapes backbone num_ftrs) k = some s)
    (hc : lookupShape ckpt k = some t) (hne : s ≠ t) :
    load_state_dict (effnetModelShapes backbone num_ftrs) ckpt =
      Except.error "Error(s) in loading state_dict" ∧
    scriptEvents.indexOf ScriptEvent.loadEffnetCkpt <
      scriptEvents.indexOf ScriptEvent.trainLoop ∧
    effnetModelShapes backbone num_ftrs =
      backbone ++ [("_fc.fc1.weight", [512, num_ftrs]), ("_fc.fc1.bias", [512]),
        ("_fc.fc2.weight", [2, 512]), ("_fc.fc2.bias", [2])] := by
  refine ⟨?_, by decide, rfl⟩
  rw [lookupShape] at hm
  rcases hfind : (effnetModelShapes backbone num_ftrs).find? (fun p => p.1 == k)
    with _ | p0
  · rw [hfind] at hm
    simp at hm
  · rw [hfind] at hm
    simp only [Option.map_some', Option.some.injEq] at hm
    have hkey : p0.1 = k := by
      have := List.find?_some hfind
      simpa using this
    have hmem : p0 ∈ effnetModelShapes backbone num_ftrs :=
      List.mem_of_find?_eq_some hfind
    have hfail : (effnetModelShapes backbone num_ftrs).all
        (fun p => decide (lookupShape ckpt p.1 = some p.2)) = false := by
      rw [List.all_eq_false]
      refine ⟨p0, hmem, ?_⟩
      rw [hkey, hc, hm]
      simp
      exact fun h => hne h.symm
    rw [load_state_dict, hfail]
    simp

/-- Witness for C8: a checkpoint whose `_fc.fc1.weight` has the wrong shape
for `CustomClassifier(3, 2)` fails to load. -/
theorem effnet_ckpt_load_mismatch_fails_witness :
    load_state_dict (effnetModelShapes [] 3) [("_fc.fc1.weight", [1, 3])] =
      Except.error "Error(s) in loading state_dict" ∧
    scriptEvents.indexOf ScriptEvent.loadEffnetCkpt <
      scriptEvents.indexOf ScriptEvent.trainLoop ∧
    effnetModelShapes [] 3 =
      [] ++ [("_fc.fc1.weight", [512, 3]), ("_fc.fc1.bias", [512]),
        ("_fc.fc2.weight", [2, 512]), ("_fc.fc2.bias", [2])] :=
  effnet_ckpt_load_mismatch_fails [] [("_fc.fc1.weight", [1, 3])] 3
    "_fc.fc1.weight" [512, 3] [1, 3] (by decide) (by decide) (by decide)
